import Mathlib

/-!
Shallow embedding of `deepseek_tool.py`, a multi-account chat exporter with
live and offline regular-expression scanning.  Python strings are modelled as
`List Char` (Python indexing and slicing act on code points), fallible HTTP
calls as explicit per-attempt outcomes supplied by an oracle, the regular
expression engine (always invoked with `re.IGNORECASE`) is modelled for
literal patterns, and the match log is a list of records acted on by explicit
log operations.
-/

namespace Historydumper

/-- Python strings are sequences of code points; we model them as `List Char`. -/
abbrev Text := List Char

/-! ### Regular-expression engine (literal patterns, `re.IGNORECASE`) -/

/-- ASCII case folding, as `re.IGNORECASE` applies it to ASCII letters. -/
def lowerChar (c : Char) : Char :=
  if 'A' ≤ c && c ≤ 'Z' then Char.ofNat (c.toNat + 32) else c

/-- Does `p` occur literally at the head of `t`. -/
def isLitAt : Text → Text → Bool
  | [], _ => true
  | _ :: _, [] => false
  | a :: p, b :: t => a = b && isLitAt p t

/-- Absolute index of the first literal occurrence of `p` in `t`, where `i`
is the absolute index of the head of `t`. -/
def findLit (p : Text) : Text → Nat → Option Nat
  | [], i => if isLitAt p [] then some i else none
  | c :: rest, i => if isLitAt p (c :: rest) then some i else findLit p rest (i + 1)

/-- Embedding of `re.compile(pat, re.IGNORECASE).search(text)` restricted to
literal patterns: the half-open span of the first case-insensitive
occurrence of `pat` in `text`, or `none`. -/
def reSearchIC (pat text : Text) : Option (Nat × Nat) :=
  match findLit (pat.map lowerChar) (text.map lowerChar) 0 with
  | some i => some (i, i + pat.length)
  | none => none

/-- Fuel-bounded enumeration of non-overlapping occurrences of `p` in `t`
(`i` is the absolute index of the head of `t`). -/
def findIterAux (p : Text) : Nat → Text → Nat → List (Nat × Nat)
  | 0, _, _ => []
  | fuel + 1, t, i =>
    match findLit p t i with
    | none => []
    | some j => (j, j + p.length) :: findIterAux p fuel (t.drop (j - i + p.length)) (j + p.length)

/-- Embedding of `re.compile(pat, re.IGNORECASE).finditer(text)` restricted to
non-empty literal patterns: non-overlapping case-insensitive match spans, in
position order. -/
def reFindIterIC (pat text : Text) : List (Nat × Nat) :=
  if pat = [] then []
  else findIterAux (pat.map lowerChar) (text.length + 1) (text.map lowerChar) 0

/-! ### `safe_filename` -/

/-- The character class of `re.sub(r'[\\/*?:"<>|]', "_", text)` in
`safe_filename`. -/
def forbiddenChars : List Char := ['\\', '/', '*', '?', ':', '\"', '<', '>', '|']

/-- Embedding of `safe_filename`: replace every forbidden character by an
underscore, then keep the first 120 code points (`[:120]`). -/
def safe_filename (text : Text) : Text :=
  (text.map (fun c => if c ∈ forbiddenChars then '_' else c)).take 120

/-- The sanitizer as the spec words it, for comparison with `safe_filename`:
each forbidden character replaced by an underscore and the result truncated
to 120 characters. -/
def sanitizeSpec (text : Text) : Text :=
  (text.map (fun c => if c ∈ forbiddenChars then '_' else c)).take 120

/-! ### `parse_accounts` -/

/-- Python `str.strip` default whitespace (the ASCII cases). -/
def isSpaceChar (c : Char) : Bool :=
  c = ' ' || c = '\t' || c = '\n' || c = '\r' || c = '\x0b' || c = '\x0c'

/-- Embedding of Python `str.strip()`. -/
def trimText (t : Text) : Text :=
  ((t.dropWhile isSpaceChar).reverse.dropWhile isSpaceChar).reverse

/-- Embedding of Python `str.split(":")`. -/
def splitColon : Text → List Text
  | [] => [[]]
  | c :: rest =>
    let groups := splitColon rest
    if c = ':' then [] :: groups
    else
      match groups with
      | [] => [[c]]
      | g :: gs => (c :: g) :: gs

/-- The non-empty trimmed colon-separated fields of a line, as computed by
`[p.strip() for p in raw.split(":") if p.strip()]` on the stripped line. -/
def lineFields (line : Text) : List Text :=
  ((splitColon (trimText line)).map trimText).filter (fun p => p ≠ [])

/-- Embedding of one iteration of the loop in `parse_accounts`: strip the
line, skip it when blank, collect the non-empty trimmed colon-separated
fields, skip the line when fewer than two fields remain, and otherwise
produce `(username, password) = (second-to-last field, last field)`. -/
def parseLine (line : Text) : Option (Text × Text) :=
  if trimText line = [] then none
  else if (lineFields line).length < 2 then none
  else
    match (lineFields line).reverse with
    | password :: username :: _ => some (username, password)
    | _ => none

/-- Embedding of `parse_accounts` over the file's lines. -/
def parse_accounts (lines : List Text) : List (Text × Text) :=
  lines.filterMap parseLine

/-! ### Data model: sessions, messages, match records -/

/-- A conversation as listed by the remote service (`chat.get("id")`,
`chat.get("title")`). -/
structure Session where
  id : Option Text
  title : Option Text
deriving DecidableEq

/-- A message as fetched from a conversation's history. -/
structure Message where
  role : Option Text
  content : Option Text
  inserted_at : Option Text
  message_id : Option Int
deriving DecidableEq

/-- The `biz_data` object returned by `fetch_history`; `{}` on exhaustion is
the record with `chat_messages` absent. -/
structure HistoryBiz where
  chat_messages : Option (List Message)
deriving DecidableEq

/-- Content normalization `m.get("content", "") or ""`: absent or null
content becomes the empty string. -/
def msgContent (m : Message) : Text := m.content.getD []

/-- One line of `matches.jsonl`, as built in the live-search block of
`AccountWorker.run`. -/
structure MatchRecord where
  username : Text
  chat_id : Text
  pattern : Text
  message_id : Option Int
  match_excerpt : Text
deriving DecidableEq

/-! ### Live scanning (`AccountWorker.run`, live-search block) -/

/-- Embedding of the live excerpt
`content[:200] + ("..." if len(content) > 200 else "")`. -/
def liveExcerpt (content : Text) : Text :=
  content.take 200 ++ (if 200 < content.length then ('.' :: '.' :: '.' :: []) else [])

/-- The records appended to the match log by the live-search block for one
message: one record per compiled pattern whose search on the content
succeeds, in pattern order. -/
def liveScanRecords (username chatId : Text) (messageId : Option Int)
    (patterns : List Text) (content : Text) : List MatchRecord :=
  (patterns.filter (fun p => (reSearchIC p content).isSome)).map
    (fun p => ⟨username, chatId, p, messageId, liveExcerpt content⟩)

/-- The slice of `text` covered by a match span. -/
def matchWindow (text : Text) (s e : Nat) : Text := (text.drop s).take (e - s)

/-! ### Offline scanning (`offline_search_files`) -/

/-- Newline collapse applied to offline excerpts (`.replace("\n", " ")`). -/
def nlToSpace (c : Char) : Char := if c = '\n' then ' ' else c

/-- Embedding of the excerpt expression in `offline_search_files`:
`text[max(0, m.start()-80):min(len(text), m.end()+80)].replace("\n", " ")`.
Natural-number subtraction makes `s - 80` the clamp `max 0 (s - 80)`. -/
def offlineExcerpt (text : Text) (s e : Nat) : Text :=
  ((text.take (min text.length (e + 80))).drop (s - 80)).map nlToSpace

/-- The excerpt window as the spec words it: the substring from
`max(0, matchStart - 80)` to `min(textLength, matchEnd + 80)` (clamp written
over `Int`), newlines replaced by spaces. -/
def specWindow (text : Text) (s e : Nat) : Text :=
  ((text.take (min text.length (e + 80))).drop (max (0 : Int) ((s : Int) - 80)).toNat).map nlToSpace

/-- One entry of the offline results (`{"file": .., "pattern": .., "match": ..}`). -/
structure OfflineEntry where
  file : Text
  pattern : Text
  matched : Text
deriving DecidableEq

/-- The entries produced by `offline_search_files` for one file: for each
pattern in order, one entry per non-overlapping match, carrying the clamped
excerpt. -/
def offlineEntries (path : Text) (text : Text) (patterns : List Text) : List OfflineEntry :=
  patterns.flatMap (fun p =>
    (reFindIterIC p text).map (fun se => ⟨path, p, offlineExcerpt text se.1 se.2⟩))

/-! ### SQLite `REGEXP` function (`init_db`) -/

/-- Embedding of the `REGEXP` function installed by `init_db`:
`1 if re.search(pattern, item or "", re.IGNORECASE) else 0` (literal
patterns, for which the `re.error` branch does not arise). -/
def sqliteRegexp (pat : Text) (item : Option Text) : Nat :=
  if (reSearchIC pat (item.getD [])).isSome then 1 else 0

/-! ### The match log as a sequence of file operations -/

/-- The operations the pipeline performs on the match-log file: the single
`open(matches_root, "w").close()` truncation in `main`, and the appends
(`open(..., "a")` plus one-line write) in `AccountWorker.run`. -/
inductive LogOp where
  | truncate
  | append (r : MatchRecord)
deriving DecidableEq

/-- Effect of one log operation on the persisted sequence of records. -/
def applyLogOp (log : List MatchRecord) : LogOp → List MatchRecord
  | .truncate => []
  | .append r => log ++ [r]

/-- Replay a sequence of log operations. -/
def runLogOps (log : List MatchRecord) (ops : List LogOp) : List MatchRecord :=
  ops.foldl applyLogOp log

/-- The operations a live run performs on the match log: one truncation
before the pool starts, then the workers' appends in completion order. -/
def pipelineTrace (writes : List MatchRecord) : List LogOp :=
  LogOp.truncate :: writes.map LogOp.append

/-! ### Worker pool (`main`) -/

/-- The per-account outcome dict (`{"username": .., "ok": .., "error"/"folder": ..}`). -/
structure AccountOutcome where
  username : Option Text
  ok : Bool
  error : Option Text
  folder : Option Text
deriving DecidableEq

/-- What one submitted future yields: a returned outcome dict, or a raised
exception with its message. -/
inductive TaskResult where
  | value (o : AccountOutcome)
  | raised (e : Text)
deriving DecidableEq

/-- Embedding of the collection loop over `as_completed`: `fut.result()` is
appended, and a raised exception is converted to `{"ok": False, "error": str(e)}`. -/
def collectOutcome : TaskResult → AccountOutcome
  | .value o => o
  | .raised e => { username := none, ok := false, error := some e, folder := none }

/-- All outcomes collected by the pool, one per submitted task. -/
def collectResults (tasks : List TaskResult) : List AccountOutcome :=
  tasks.map collectOutcome

/-- One future is submitted per parsed account; `behavior` is what that
account's task does. -/
def poolRun (accounts : List (Text × Text)) (behavior : Text × Text → TaskResult) :
    List AccountOutcome :=
  collectResults (accounts.map behavior)

/-- Summary count `succ = sum(1 for r in results if r.get("ok"))`. -/
def successCount (rs : List AccountOutcome) : Nat := rs.countP (fun r => r.ok)

/-- Summary count `fail = len(results) - succ`. -/
def failCount (rs : List AccountOutcome) : Nat := rs.length - successCount rs

/-! ### Login (`AccountWorker.login`) -/

/-- The parsed body of a login response: unparseable JSON (the exception's
message), or parsed JSON with the optional nested
`data.biz_data.user.token` and the raw response text. -/
inductive LoginBody where
  | malformed (err : Text)
  | json (token : Option Text) (rawText : Text)
deriving DecidableEq

/-- One login attempt as observed by the worker: a transport-level exception,
or an HTTP reply. -/
inductive LoginAttempt where
  | fault (err : Text)
  | reply (status : Nat) (body : LoginBody)
deriving DecidableEq

/-- Decimal rendering of a status code, for the `f"HTTP {r.status_code}"`
error string. -/
def natText (n : Nat) : Text := (toString n).data

/-- The `last_err` text set by the no-token branch:
`f"No token in response: {r.text[:200]}"`. -/
def noTokenMsg (raw : Text) : Text :=
  ('N' :: 'o' :: ' ' :: 't' :: 'o' :: 'k' :: 'e' :: 'n' :: ' ' :: 'i' :: 'n' :: ' '
    :: 'r' :: 'e' :: 's' :: 'p' :: 'o' :: 'n' :: 's' :: 'e' :: ':' :: ' ' :: [])
  ++ raw.take 200

/-- Outcome of one login attempt: success `(token, body)` exactly on a
200-status reply whose parsed body holds a non-empty token; otherwise the
`last_err` string of the branch taken. -/
def loginAttemptOutcome : LoginAttempt → Except Text (Text × Text)
  | .fault e => .error e
  | .reply s b =>
    if s ≠ 200 then .error (('H' :: 'T' :: 'T' :: 'P' :: ' ' :: []) ++ natText s)
    else
      match b with
      | .malformed e => .error e
      | .json none raw => .error (noTokenMsg raw)
      | .json (some tok) raw =>
          if tok = [] then .error (noTokenMsg raw) else .ok (tok, raw)

/-- Boolean success test on an `Except`. -/
def exceptIsOk {ε α : Type} : Except ε α → Bool
  | .ok _ => true
  | .error _ => false

/-- The attempt loop for one payload shape: run the attempts in order,
threading `last_err`, and return the first success. -/
def trySeq : List LoginAttempt → Option Text → Except (Option Text) (Text × Text)
  | [], le => .error le
  | a :: rest, le =>
    match loginAttemptOutcome a with
    | .ok r => .ok r
    | .error e => trySeq rest (some e)

/-- A login payload (`email`/`mobile`/`password` fields of the POST body). -/
structure LoginPayload where
  email : Text
  mobile : Text
  password : Text
deriving DecidableEq

/-- Embedding of `_try_login_payloads`: first the identifier as an email with
an empty mobile field, then as a mobile handle with an empty email field. -/
def tryLoginPayloads (username password : Text) : List LoginPayload :=
  [⟨username, [], password⟩, ⟨[], username, password⟩]

/-- The payload loop of `login`: for each payload shape, `maxRetries + 1`
attempts (the oracle gives the attempt's observed result), threading
`last_err` across shapes; exhaustion of all shapes raises with `last_err`. -/
def loginLoop (oracle : LoginPayload → Nat → LoginAttempt) (mr : Nat) :
    List LoginPayload → Option Text → Except (Option Text) (Text × Text)
  | [], le => .error le
  | p :: ps, le =>
    match trySeq ((List.range (mr + 1)).map (oracle p)) le with
    | .ok r => .ok r
    | .error le' => loginLoop oracle mr ps le'

/-- Embedding of `AccountWorker.login`. -/
def login (username password : Text) (oracle : LoginPayload → Nat → LoginAttempt)
    (mr : Nat) : Except (Option Text) (Text × Text) :=
  loginLoop oracle mr (tryLoginPayloads username password) none

/-- The `last_err` update of one attempt. -/
def lastErrStep (acc : Option Text) (a : LoginAttempt) : Option Text :=
  match loginAttemptOutcome a with
  | .ok _ => acc
  | .error e => some e

/-- The `last_err` value after a sequence of attempts. -/
def lastErrAcc (le : Option Text) (l : List LoginAttempt) : Option Text :=
  l.foldl lastErrStep le

/-- The error text an attempt contributes, if it fails. -/
def errTextOf (a : LoginAttempt) : Option Text :=
  match loginAttemptOutcome a with
  | .ok _ => none
  | .error e => some e

/-! ### Retrying fetches (`fetch_sessions`, `fetch_history`) -/

/-- One attempt of a GET call: a raised exception, or a reply whose body
either fails to parse (`none`) or parses to the extracted payload. -/
inductive FetchAttempt (α : Type) where
  | fault
  | reply (status : Nat) (body : Option α)

/-- The shared retry loop of `fetch_sessions` and `fetch_history`: first
200-status reply with a parseable body wins; exhausting the attempts yields
the empty default. -/
def fetchWithRetry {α : Type} (dflt : α) : List (FetchAttempt α) → α
  | [] => dflt
  | .fault :: rest => fetchWithRetry dflt rest
  | .reply s body :: rest =>
    if s ≠ 200 then fetchWithRetry dflt rest
    else
      match body with
      | none => fetchWithRetry dflt rest
      | some v => v

/-- Does this attempt fail (transport fault, non-200 status, or malformed
body)? -/
def attemptFails {α : Type} : FetchAttempt α → Bool
  | .fault => true
  | .reply s body => decide (s ≠ 200) || body.isNone

/-- Embedding of `AccountWorker.fetch_sessions`: the extracted
`chat_sessions` list, or `[]` after exhaustion. -/
def fetch_sessions (attempts : List (FetchAttempt (List Session))) : List Session :=
  fetchWithRetry [] attempts

/-- Embedding of `AccountWorker.fetch_history`: the extracted `biz_data`
object, or `{}` after exhaustion. -/
def fetch_history (attempts : List (FetchAttempt HistoryBiz)) : HistoryBiz :=
  fetchWithRetry { chat_messages := none } attempts

/-! ## Theorems -/

/-- C6: for every input line of the credential file that yields at least two
non-empty colon-separated fields after trimming, `parse_accounts` returns
exactly one credential for it, whose secret (password) is the last such
field and whose identifier (username) is the second-to-last, earlier fields
ignored; a line yielding fewer than two fields is skipped, appears nowhere
in the result, and does not abort parsing of the remaining lines. -/
theorem parse_accounts_line (pre post : List Text) (line : Text) :
    (∀ password username rest,
        (lineFields line).reverse = password :: username :: rest →
        parse_accounts (pre ++ line :: post)
          = parse_accounts pre ++ (username, password) :: parse_accounts post)
    ∧ ((lineFields line).length < 2 →
        parse_accounts (pre ++ line :: post) = parse_accounts pre ++ parse_accounts post) := by
  constructor
  · intro password username rest h
    have hraw : ¬ trimText line = [] := by
      intro h0
      have hempty : lineFields line = [] := by
        unfold lineFields
        rw [h0]
        rfl
      rw [hempty] at h
      simp at h
    have hlen : ¬ (lineFields line).length < 2 := by
      have : (lineFields line).length = (lineFields line).reverse.length :=
        (List.length_reverse _).symm
      rw [this, h]
      simp
    have hsome : parseLine line = some (username, password) := by
      rw [parseLine, if_neg hraw, if_neg hlen, h]
    simp [parse_accounts, List.filterMap_append, List.filterMap_cons, hsome]
  · intro hlen
    have hnone : parseLine line = none := by
      rw [parseLine]
      by_cases h0 : trimText line = []
      · rw [if_pos h0]
      · rw [if_neg h0, if_pos hlen]
    simp [parse_accounts, List.filterMap_append, List.filterMap_cons, hnone]

/-- Witness for C6: the line `u:p` parses to exactly the credential
`(u, p)`. -/
theorem parse_accounts_line_witness :
    parse_accounts ([] ++ ('u' :: ':' :: 'p' :: []) :: [])
      = parse_accounts [] ++ (('u' :: []), ('p' :: [])) :: parse_accounts [] :=
  (parse_accounts_line [] [] ('u' :: ':' :: 'p' :: [])).1 ('p' :: []) ('u' :: []) [] (by decide)

/-- C7: for every input string, `safe_filename`'s output contains none of
the forbidden characters, has length at most 120, and equals the input with
each forbidden character replaced by an underscore and the result truncated
to 120 characters. -/
theorem safe_filename_spec (text : Text) :
    (∀ c ∈ safe_filename text, c ∉ forbiddenChars)
    ∧ (safe_filename text).length ≤ 120
    ∧ safe_filename text = sanitizeSpec text := by
  refine ⟨?_, ?_, rfl⟩
  · intro c hc
    have hc' : c ∈ text.map (fun c => if c ∈ forbiddenChars then '_' else c) :=
      List.take_subset _ _ hc
    rcases List.mem_map.1 hc' with ⟨a, _, rfl⟩
    by_cases ha : a ∈ forbiddenChars
    · simpa [ha] using (by decide : ('_' : Char) ∉ forbiddenChars)
    · simpa [ha] using ha
  · simpa [safe_filename, List.length_take] using Nat.min_le_left 120 _

/-- Witness for C7: the sanitizer removes the slash from `a/b`. -/
theorem safe_filename_spec_witness : ('/' : Char) ∉ safe_filename ('a' :: '/' :: 'b' :: []) :=
  fun h => (safe_filename_spec ('a' :: '/' :: 'b' :: [])).1 '/' h (by decide)

/-- C3: the pool produces exactly one outcome per submitted account task, a
task that raises is converted to a failed outcome carrying the error detail
rather than terminating the pool, and the summary's success and failure
counts sum to the number of accounts. -/
theorem pool_outcomes (accounts : List (Text × Text)) (behavior : Text × Text → TaskResult) :
    (poolRun accounts behavior).length = accounts.length
    ∧ (∀ e, collectOutcome (.raised e)
        = { username := none, ok := false, error := some e, folder := none })
    ∧ successCount (poolRun accounts behavior) + failCount (poolRun accounts behavior)
        = accounts.length := by
  have hlen : (poolRun accounts behavior).length = accounts.length := by
    simp [poolRun, collectResults]
  refine ⟨hlen, fun e => rfl, ?_⟩
  have hle : successCount (poolRun accounts behavior) ≤ (poolRun accounts behavior).length :=
    List.countP_le_length _
  rw [failCount, hlen] at *
  omega

/-- Witness for C3: a pool over one raising task yields one failed outcome
and counts summing to one. -/
theorem pool_outcomes_witness :
    successCount (poolRun [(('u' :: []), ('p' :: []))] (fun _ => .raised ('e' :: [])))
      + failCount (poolRun [(('u' :: []), ('p' :: []))] (fun _ => .raised ('e' :: [])))
      = 1 :=
  (pool_outcomes [(('u' :: []), ('p' :: []))] (fun _ => .raised ('e' :: []))).2.2

/-- The replay of a pure append sequence extends the log by exactly those
records. -/
theorem runLogOps_appends (log : List MatchRecord) (ws : List MatchRecord) :
    runLogOps log (ws.map LogOp.append) = log ++ ws := by
  induction ws generalizing log with
  | nil => simp [runLogOps]
  | cons w ws ih =>
    simp only [List.map_cons, runLogOps, List.foldl_cons] at *
    rw [ih]
    simp [applyLogOp]

/-- C2: within a run, the match log is append-only: after the single initial
truncation the log holds exactly the appended records in order, the log at
the end of the run extends the log at any intermediate point, and every
record once written stays at its position untouched. -/
theorem matchlog_append_only (writes more : List MatchRecord) :
    runLogOps [] (pipelineTrace writes) = writes
    ∧ (∃ tail, runLogOps [] (pipelineTrace (writes ++ more))
        = runLogOps [] (pipelineTrace writes) ++ tail)
    ∧ (∀ (i : Nat) (r : MatchRecord), (runLogOps [] (pipelineTrace writes))[i]? = some r →
        (runLogOps [] (pipelineTrace (writes ++ more)))[i]? = some r) := by
  have hrun : ∀ ws : List MatchRecord, runLogOps [] (pipelineTrace ws) = ws := by
    intro ws
    have : runLogOps [] (pipelineTrace ws) = runLogOps [] (ws.map LogOp.append) := by
      simp [pipelineTrace, runLogOps, applyLogOp]
    rw [this, runLogOps_appends]
    simp
  refine ⟨hrun writes, ⟨more, by rw [hrun, hrun]⟩, ?_⟩
  intro i r h
  rw [hrun] at h
  rw [hrun]
  have hi : i < writes.length := by
    by_contra hge
    rw [List.getElem?_eq_none (by omega)] at h
    exact Option.noConfusion h
  rw [List.getElem?_append, if_pos hi]
  exact h

/-- Witness for C2: a record written first stays at position zero after a
later append. -/
theorem matchlog_append_only_witness :
    (runLogOps [] (pipelineTrace ([(⟨[], [], [], none, []⟩ : MatchRecord)]
        ++ [(⟨('x' :: []), [], [], none, []⟩ : MatchRecord)])))[0]?
      = some (⟨[], [], [], none, []⟩ : MatchRecord) :=
  (matchlog_append_only [⟨[], [], [], none, []⟩] [⟨('x' :: []), [], [], none, []⟩]).2.2
    0 ⟨[], [], [], none, []⟩ (by decide)

/-- Exhausting all attempts of the retry loop yields the default. -/
theorem fetchWithRetry_all_fail {α : Type} (dflt : α) (atts : List (FetchAttempt α))
    (h : ∀ a ∈ atts, attemptFails a = true) : fetchWithRetry dflt atts = dflt := by
  induction atts with
  | nil => rfl
  | cons a rest ih =>
    have hrest : ∀ a ∈ rest, attemptFails a = true :=
      fun x hx => h x (List.mem_cons_of_mem _ hx)
    cases a with
    | fault => exact ih hrest
    | reply s body =>
      have ha := h _ (List.mem_cons_self _ _)
      by_cases hs : s = 200
      · have hbody : body = none := by
          rw [attemptFails, hs] at ha
          simpa using ha
        subst hs hbody
        exact ih hrest
      · simp only [fetchWithRetry]
        rw [if_pos hs]
        exact ih hrest

/-- C4: each of `fetch_sessions` and `fetch_history` makes at most
`maxRetries + 1` attempts (the result depends only on those attempts), and
when every attempt fails — transport fault, non-200 status, or malformed
body — the call returns the empty session list, respectively the empty
`biz_data` object (hence an empty message sequence), instead of raising. -/
theorem fetch_empty_on_exhaustion (mr : Nat)
    (oS : Nat → FetchAttempt (List Session)) (oH : Nat → FetchAttempt HistoryBiz) :
    ((List.range (mr + 1)).map oS).length = mr + 1
    ∧ (∀ oS' : Nat → FetchAttempt (List Session),
        (∀ k, k < mr + 1 → oS k = oS' k) →
        fetch_sessions ((List.range (mr + 1)).map oS)
          = fetch_sessions ((List.range (mr + 1)).map oS'))
    ∧ ((∀ k, k < mr + 1 → attemptFails (oS k) = true) →
        fetch_sessions ((List.range (mr + 1)).map oS) = [])
    ∧ ((∀ k, k < mr + 1 → attemptFails (oH k) = true) →
        fetch_history ((List.range (mr + 1)).map oH) = { chat_messages := none }
        ∧ (fetch_history ((List.range (mr + 1)).map oH)).chat_messages.getD [] = []) := by
  refine ⟨by simp, ?_, ?_, ?_⟩
  · intro oS' hagree
    have : (List.range (mr + 1)).map oS = (List.range (mr + 1)).map oS' :=
      List.map_congr_left (fun k hk => hagree k (List.mem_range.1 hk))
    rw [fetch_sessions, this, fetch_sessions]
  · intro hfail
    refine fetchWithRetry_all_fail _ _ ?_
    intro a ha
    rcases List.mem_map.1 ha with ⟨k, hk, rfl⟩
    exact hfail k (List.mem_range.1 hk)
  · intro hfail
    have hdone : fetch_history ((List.range (mr + 1)).map oH) = { chat_messages := none } := by
      refine fetchWithRetry_all_fail _ _ ?_
      intro a ha
      rcases List.mem_map.1 ha with ⟨k, hk, rfl⟩
      exact hfail k (List.mem_range.1 hk)
    exact ⟨hdone, by rw [hdone]; rfl⟩

/-- Witness for C4: one all-fault round of attempts yields the empty session
list. -/
theorem fetch_empty_on_exhaustion_witness :
    fetch_sessions ((List.range 1).map (fun _ => FetchAttempt.fault)) = ([] : List Session) :=
  (fetch_empty_on_exhaustion 0 (fun _ => FetchAttempt.fault)
    (fun _ => FetchAttempt.fault)).2.2.1 (fun _ _ => rfl)

/-- Membership in an oracle-mapped attempt list, unpacked to attempt
indices. -/
theorem forall_mem_range_map {β : Type} (g : Nat → β) (n : Nat) (P : β → Prop) :
    (∀ a ∈ (List.range n).map g, P a) ↔ (∀ k, k < n → P (g k)) := by
  constructor
  · intro h k hk
    exact h _ (List.mem_map_of_mem _ (List.mem_range.2 hk))
  · intro h a ha
    rcases List.mem_map.1 ha with ⟨k, hk, rfl⟩
    exact h k (List.mem_range.1 hk)

/-- The attempt loop fails exactly when every attempt fails, and then its
error is the threaded `last_err`. -/
theorem trySeq_error_iff (l : List LoginAttempt) (le e : Option Text) :
    trySeq l le = .error e ↔
      ((∀ a ∈ l, exceptIsOk (loginAttemptOutcome a) = false) ∧ e = lastErrAcc le l) := by
  induction l generalizing le with
  | nil =>
    constructor
    · intro h
      refine ⟨by simp, ?_⟩
      have hle : le = e := by
        rw [show trySeq [] le = Except.error le from rfl] at h
        simpa using h
      simp [lastErrAcc, hle]
    · rintro ⟨-, rfl⟩
      rfl
  | cons a rest ih =>
    cases hout : loginAttemptOutcome a with
    | ok r =>
      rw [trySeq.eq_def]
      simp only [hout]
      simp [hout, exceptIsOk]
    | error m =>
      rw [trySeq.eq_def]
      simp only [hout]
      rw [ih]
      simp [lastErrAcc, lastErrStep, hout, exceptIsOk]

/-- A successful attempt loop contains a successful attempt. -/
theorem trySeq_ok_mem (l : List LoginAttempt) (le : Option Text) (r : Text × Text)
    (h : trySeq l le = .ok r) : ∃ a ∈ l, loginAttemptOutcome a = .ok r := by
  induction l generalizing le with
  | nil => simp [trySeq] at h
  | cons a rest ih =>
    cases hout : loginAttemptOutcome a with
    | ok r' =>
      simp only [trySeq, hout] at h
      obtain rfl : r' = r := by simpa using h
      exact ⟨a, List.mem_cons_self _ _, hout⟩
    | error m =>
      simp only [trySeq, hout] at h
      rcases ih _ h with ⟨x, hx, ho⟩
      exact ⟨x, List.mem_cons_of_mem _ hx, ho⟩

/-- Inversion: only a 200-status reply carrying a non-empty nested token
succeeds, and it returns exactly that token with the raw body. -/
theorem loginAttemptOutcome_ok_inv (a : LoginAttempt) (tok raw : Text)
    (h : loginAttemptOutcome a = .ok (tok, raw)) :
    a = .reply 200 (.json (some tok) raw) := by
  cases a with
  | fault e => simp [loginAttemptOutcome] at h
  | reply s b =>
    by_cases hs : s = 200
    · subst hs
      cases b with
      | malformed e => simp [loginAttemptOutcome] at h
      | json t raw' =>
        cases t with
        | none => simp [loginAttemptOutcome] at h
        | some tk =>
          by_cases ht : tk = []
          · simp [loginAttemptOutcome, ht] at h
          · simp only [loginAttemptOutcome] at h
            rw [if_neg (by simp), if_neg ht] at h
            obtain ⟨rfl, rfl⟩ : tk = tok ∧ raw' = raw := by simpa using h
            rfl
    · simp [loginAttemptOutcome, hs] at h

/-- The threaded `last_err` after a full failing round of attempts is the
last attempt's error. -/
theorem lastErrAcc_of_fail (g : Nat → LoginAttempt) (mr : Nat) (le : Option Text)
    (hfail : exceptIsOk (loginAttemptOutcome (g mr)) = false) :
    lastErrAcc le ((List.range (mr + 1)).map g) = errTextOf (g mr) := by
  rw [List.range_succ, List.map_append, lastErrAcc, List.foldl_append]
  cases hout : loginAttemptOutcome (g mr) with
  | ok r => rw [hout] at hfail; simp [exceptIsOk] at hfail
  | error m => simp [lastErrStep, errTextOf, hout]

/-- C1: `login` tries exactly the two payload shapes in fixed order (email
with empty mobile, then mobile with empty email), consults at most
`maxRetries + 1` attempts per shape, succeeds — returning the token and raw
body — only on a 200-status attempt whose body holds the nested token (a
200 reply without a token is a retryable failure), and raises carrying the
last observed error exactly when every attempt of both shapes fails. -/
theorem login_contract (username password : Text)
    (oracle : LoginPayload → Nat → LoginAttempt) (mr : Nat) :
    tryLoginPayloads username password
        = [⟨username, [], password⟩, ⟨[], username, password⟩]
    ∧ (∀ tok raw, login username password oracle mr = .ok (tok, raw) →
        ∃ p ∈ tryLoginPayloads username password, ∃ k, k < mr + 1 ∧
          oracle p k = .reply 200 (.json (some tok) raw))
    ∧ (∀ raw rest le,
        trySeq (LoginAttempt.reply 200 (LoginBody.json none raw) :: rest) le
          = trySeq rest (some (noTokenMsg raw)))
    ∧ (∀ oracle' : LoginPayload → Nat → LoginAttempt,
        (∀ p ∈ tryLoginPayloads username password, ∀ k, k < mr + 1 →
          oracle p k = oracle' p k) →
        login username password oracle mr = login username password oracle' mr)
    ∧ (∀ e, login username password oracle mr = .error e ↔
        ((∀ p ∈ tryLoginPayloads username password, ∀ k, k < mr + 1 →
            exceptIsOk (loginAttemptOutcome (oracle p k)) = false)
          ∧ e = errTextOf (oracle ⟨[], username, password⟩ mr))) := by
  refine ⟨rfl, ?_, ?_, ?_, ?_⟩
  · intro tok raw h
    simp only [login, tryLoginPayloads, loginLoop] at h
    cases h1 : trySeq ((List.range (mr + 1)).map (oracle ⟨username, [], password⟩)) none with
    | ok r0 =>
      simp only [h1] at h
      obtain rfl : r0 = (tok, raw) := by simpa using h
      rcases trySeq_ok_mem _ _ _ h1 with ⟨a, ha, hout⟩
      rcases List.mem_map.1 ha with ⟨k, hk, rfl⟩
      exact ⟨⟨username, [], password⟩, by simp [tryLoginPayloads], k, List.mem_range.1 hk,
        loginAttemptOutcome_ok_inv _ _ _ hout⟩
    | error e1 =>
      simp only [h1] at h
      cases h2 : trySeq ((List.range (mr + 1)).map (oracle ⟨[], username, password⟩)) e1 with
      | ok r0 =>
        simp only [h2] at h
        obtain rfl : r0 = (tok, raw) := by simpa using h
        rcases trySeq_ok_mem _ _ _ h2 with ⟨a, ha, hout⟩
        rcases List.mem_map.1 ha with ⟨k, hk, rfl⟩
        exact ⟨⟨[], username, password⟩, by simp [tryLoginPayloads], k, List.mem_range.1 hk,
          loginAttemptOutcome_ok_inv _ _ _ hout⟩
      | error e2 =>
        simp only [h2] at h
        exact absurd h (by simp)
  · intro raw rest le
    rfl
  · intro oracle' hagree
    have h1 : (List.range (mr + 1)).map (oracle ⟨username, [], password⟩)
        = (List.range (mr + 1)).map (oracle' ⟨username, [], password⟩) :=
      List.map_congr_left (fun k hk =>
        hagree _ (by simp [tryLoginPayloads]) k (List.mem_range.1 hk))
    have h2 : (List.range (mr + 1)).map (oracle ⟨[], username, password⟩)
        = (List.range (mr + 1)).map (oracle' ⟨[], username, password⟩) :=
      List.map_congr_left (fun k hk =>
        hagree _ (by simp [tryLoginPayloads]) k (List.mem_range.1 hk))
    simp only [login, tryLoginPayloads, loginLoop, h1, h2]
  · intro e
    simp only [login, tryLoginPayloads, loginLoop]
    cases h1 : trySeq ((List.range (mr + 1)).map (oracle ⟨username, [], password⟩)) none with
    | ok r0 =>
      simp only [h1]
      constructor
      · intro hcon; exact absurd hcon (by simp)
      · rintro ⟨hall, _⟩
        have hfail1 : ∀ a ∈ (List.range (mr + 1)).map (oracle ⟨username, [], password⟩),
            exceptIsOk (loginAttemptOutcome a) = false :=
          (forall_mem_range_map _ _ _).2
            (fun k hk => hall _ (by simp [tryLoginPayloads]) k hk)
        have hcontra := (trySeq_error_iff
          ((List.range (mr + 1)).map (oracle ⟨username, [], password⟩)) none _).2 ⟨hfail1, rfl⟩
        rw [h1] at hcontra
        exact absurd hcontra (by simp)
    | error e1 =>
      simp only [h1]
      obtain ⟨hfail1, he1⟩ := (trySeq_error_iff _ _ _).1 h1
      cases h2 : trySeq ((List.range (mr + 1)).map (oracle ⟨[], username, password⟩)) e1 with
      | ok r0 =>
        simp only [h2]
        constructor
        · intro hcon; exact absurd hcon (by simp)
        · rintro ⟨hall, _⟩
          have hfail2 : ∀ a ∈ (List.range (mr + 1)).map (oracle ⟨[], username, password⟩),
              exceptIsOk (loginAttemptOutcome a) = false :=
            (forall_mem_range_map _ _ _).2
              (fun k hk => hall _ (by simp [tryLoginPayloads]) k hk)
          have hcontra := (trySeq_error_iff
            ((List.range (mr + 1)).map (oracle ⟨[], username, password⟩)) e1 _).2 ⟨hfail2, rfl⟩
          rw [h2] at hcontra
          exact absurd hcontra (by simp)
      | error e2 =>
        simp only [h2]
        obtain ⟨hfail2, he2⟩ := (trySeq_error_iff _ _ _).1 h2
        have hlastfail : exceptIsOk (loginAttemptOutcome (oracle ⟨[], username, password⟩ mr))
            = false :=
          (forall_mem_range_map _ _ _).1 hfail2 mr (by omega)
        have he2' : e2 = errTextOf (oracle ⟨[], username, password⟩ mr) := by
          rw [he2, lastErrAcc_of_fail _ _ _ hlastfail]
        constructor
        · intro h
          obtain rfl : e2 = e := by simpa using h
          refine ⟨?_, he2'⟩
          intro p hp k hk
          rcases (by simpa [tryLoginPayloads] using hp :
              p = (⟨username, [], password⟩ : LoginPayload)
              ∨ p = (⟨[], username, password⟩ : LoginPayload)) with rfl | rfl
          · exact (forall_mem_range_map _ _ _).1 hfail1 k hk
          · exact (forall_mem_range_map _ _ _).1 hfail2 k hk
        · rintro ⟨_, he⟩
          rw [he, ← he2']

/-- Witness for C1: with a constant transport fault and no retries, login
raises carrying that fault's message as the last observed error. -/
theorem login_contract_witness :
    login ('u' :: []) ('p' :: []) (fun _ _ => LoginAttempt.fault ('x' :: [])) 0
      = .error (some ('x' :: [])) :=
  ((login_contract ('u' :: []) ('p' :: []) (fun _ _ => LoginAttempt.fault ('x' :: [])) 0).2.2.2.2
    (some ('x' :: []))).2 ⟨fun _ _ _ _ => rfl, rfl⟩

/-- Case-insensitive search depends only on the case-folded text. -/
theorem reSearchIC_congr (pat t u : Text) (h : t.map lowerChar = u.map lowerChar) :
    reSearchIC pat t = reSearchIC pat u := by
  simp only [reSearchIC, h]

/-- C10: every pattern is compiled and applied case-insensitively in all
three matching paths — live message scanning, offline file scanning, and
the SQLite `REGEXP` function — so texts differing only in letter case
match identically in each path. -/
theorem ignorecase_paths (pat t u : Text) (h : t.map lowerChar = u.map lowerChar)
    (patterns : List Text) (user chatId : Text) (mid : Option Int) :
    reSearchIC pat t = reSearchIC pat u
    ∧ (liveScanRecords user chatId mid patterns t).map (fun r => r.pattern)
        = (liveScanRecords user chatId mid patterns u).map (fun r => r.pattern)
    ∧ reFindIterIC pat t = reFindIterIC pat u
    ∧ sqliteRegexp pat (some t) = sqliteRegexp pat (some u) := by
  have hsearch : ∀ q : Text, reSearchIC q t = reSearchIC q u :=
    fun q => reSearchIC_congr q t u h
  have hlen : t.length = u.length := by
    have := congrArg List.length h
    simpa using this
  refine ⟨hsearch pat, ?_, ?_, ?_⟩
  · have hmap : ∀ s : Text, (liveScanRecords user chatId mid patterns s).map
        (fun r => r.pattern) = patterns.filter (fun p => (reSearchIC p s).isSome) := by
      intro s
      simp only [liveScanRecords, List.map_map]
      exact List.map_id _
    rw [hmap t, hmap u]
    exact List.filter_congr (fun p _ => by rw [hsearch p])
  · simp only [reFindIterIC, h, hlen]
  · simp only [sqliteRegexp, Option.getD_some]
    simp only [hsearch pat]

/-- Witness for C10: the literal pattern `sec` matches `Sec` and `sEC`
identically through the SQLite `REGEXP` path. -/
theorem ignorecase_paths_witness :
    sqliteRegexp ('s' :: 'e' :: 'c' :: []) (some ('S' :: 'e' :: 'c' :: []))
      = sqliteRegexp ('s' :: 'e' :: 'c' :: []) (some ('s' :: 'E' :: 'C' :: [])) :=
  (ignorecase_paths ('s' :: 'e' :: 'c' :: []) ('S' :: 'e' :: 'c' :: [])
    ('s' :: 'E' :: 'C' :: []) (by decide) [] [] [] none).2.2.2

/-- The source's excerpt expression equals the spec's clamped window. -/
theorem offlineExcerpt_eq_specWindow (text : Text) (s e : Nat) :
    offlineExcerpt text s e = specWindow text s e := by
  have hidx : (max (0 : Int) ((s : Int) - 80)).toNat = s - 80 := by omega
  rw [offlineExcerpt, specWindow, hidx]

/-- C8: in offline scanning, every recorded excerpt is the substring of the
file's text from `max(0, matchStart - 80)` to `min(textLength, matchEnd + 80)`
— a window of up to 80 characters each side of the match span, clamped to
the file bounds — with every newline replaced by a space. -/
theorem offline_excerpt_spec (path text : Text) (patterns : List Text) (s e : Nat) :
    offlineExcerpt text s e = specWindow text s e
    ∧ (∀ c ∈ offlineExcerpt text s e, c ≠ '\n')
    ∧ offlineEntries path text patterns
        = patterns.flatMap (fun p =>
            (reFindIterIC p text).map (fun se => ⟨path, p, specWindow text se.1 se.2⟩)) := by
  refine ⟨offlineExcerpt_eq_specWindow text s e, ?_, ?_⟩
  · intro c hc
    rcases List.mem_map.1 hc with ⟨a, _, rfl⟩
    rw [nlToSpace]
    by_cases ha : a = '\n'
    · rw [if_pos ha]; decide
    · rw [if_neg ha]; exact ha
  · simp only [offlineEntries]
    have hfun : ∀ p : Text, (reFindIterIC p text).map
        (fun se => (⟨path, p, offlineExcerpt text se.1 se.2⟩ : OfflineEntry))
        = (reFindIterIC p text).map (fun se => ⟨path, p, specWindow text se.1 se.2⟩) :=
      fun p => List.map_congr_left
        (fun se _ => by rw [offlineExcerpt_eq_specWindow])
    exact congrArg patterns.flatMap (funext hfun)

/-- Witness for C8: a concrete excerpt window around a match equals the
spec's clamped window. -/
theorem offline_excerpt_spec_witness :
    offlineExcerpt ('a' :: '\n' :: 'b' :: []) 0 1 = specWindow ('a' :: '\n' :: 'b' :: []) 0 1 :=
  (offline_excerpt_spec [] ('a' :: '\n' :: 'b' :: []) [] 0 1).1

/-- Splitting the 200-character truncation around a match span that ends at
or before position 200. -/
theorem take200_decompose (content : Text) (s e : Nat) (hse : s ≤ e) (he : e ≤ 200) :
    content.take 200
      = content.take s ++ ((content.drop s).take (e - s)
          ++ ((content.drop s).drop (e - s)).take (200 - e)) := by
  have h1 : s + (200 - s) = 200 := by omega
  have h2 : (e - s) + (200 - e) = 200 - s := by omega
  calc content.take 200 = content.take (s + (200 - s)) := by rw [h1]
    _ = content.take s ++ (content.drop s).take (200 - s) := List.take_add _ _ _
    _ = content.take s ++ ((content.drop s).take (e - s)
          ++ ((content.drop s).drop (e - s)).take (200 - e)) := by
        rw [← h2, List.take_add]

/-- C5 (amended): with live scanning enabled, for every message and every
compiled pattern that matches the content (absent content normalized to the
empty string), exactly one record is appended, carrying the account,
conversation id, pattern, message id, and an excerpt equal to the content
truncated to 200 characters with a truncation marker when cut; the excerpt
contains the full match window whenever the match ends within the first 200
characters; a message matching no pattern appends zero records. -/
theorem live_scan_spec (user chatId : Text) (mid : Option Int) (pats : List Text)
    (content : Text) :
    ((∀ p ∈ pats, (reSearchIC p content).isSome = false) →
        liveScanRecords user chatId mid pats content = [])
    ∧ (∀ m : Message, m.content = none → msgContent m = [])
    ∧ (∀ r ∈ liveScanRecords user chatId mid pats content,
        r.username = user ∧ r.chat_id = chatId ∧ r.message_id = mid ∧ r.pattern ∈ pats
          ∧ (reSearchIC r.pattern content).isSome = true
          ∧ r.match_excerpt = liveExcerpt content)
    ∧ (∀ q : Text, (liveScanRecords user chatId mid pats content).countP
            (fun r => decide (r.pattern = q))
          = pats.countP (fun p => decide (p = q) && (reSearchIC p content).isSome))
    ∧ (∀ p s e, reSearchIC p content = some (s, e) → e ≤ 200 →
        ∃ pre suf, liveExcerpt content = pre ++ matchWindow content s e ++ suf) := by
  refine ⟨?_, ?_, ?_, ?_, ?_⟩
  · intro h
    have hf : pats.filter (fun p => (reSearchIC p content).isSome) = [] := by
      rw [List.filter_eq_nil_iff]
      intro a ha
      simp [h a ha]
    simp only [liveScanRecords, hf, List.map_nil]
  · intro m hm
    rw [msgContent, hm]
    rfl
  · intro r hr
    simp only [liveScanRecords] at hr
    rcases List.mem_map.1 hr with ⟨p, hp, rfl⟩
    have hmem := List.mem_filter.1 hp
    exact ⟨rfl, rfl, rfl, hmem.1, by simpa using hmem.2, rfl⟩
  · intro q
    simp only [liveScanRecords, List.countP_map]
    rw [List.countP_filter]
    exact List.countP_congr (fun p _ => Iff.rfl)
  · intro p s e hsome he
    have hle : s ≤ e := by
      simp only [reSearchIC] at hsome
      cases hfind : findLit (p.map lowerChar) (content.map lowerChar) 0 with
      | some i =>
        rw [hfind] at hsome
        have : (i, i + p.length) = (s, e) := by simpa using hsome
        have hi : i = s := congrArg Prod.fst this
        have hie : i + p.length = e := congrArg Prod.snd this
        omega
      | none => rw [hfind] at hsome; exact absurd hsome (by simp)
    refine ⟨content.take s, ((content.drop s).drop (e - s)).take (200 - e)
        ++ (if 200 < content.length then ('.' :: '.' :: '.' :: []) else []), ?_⟩
    simp only [liveExcerpt, matchWindow]
    rw [take200_decompose content s e hle he]
    simp [List.append_assoc]

/-- Witness for C5 (amended): for content `ab` and literal pattern `a`, the
recorded excerpt contains the match window. -/
theorem live_scan_spec_witness :
    ∃ pre suf, liveExcerpt ('a' :: 'b' :: [])
      = pre ++ matchWindow ('a' :: 'b' :: []) 0 1 ++ suf :=
  (live_scan_spec [] [] none [('a' :: [])] ('a' :: 'b' :: [])).2.2.2.2
    ('a' :: []) 0 1 (by decide) (by decide)

set_option maxRecDepth 40000 in
/-- Counterexample to C5 as stated: for a 251-character content whose only
match of the literal pattern `z` lies at position 250, exactly one record is
appended, but its excerpt — the content truncated to 200 characters plus the
marker — does not contain the match window. -/
theorem live_scan_window_ce :
    (liveScanRecords ('u' :: []) ('c' :: []) none [('z' :: [])]
        (List.replicate 250 'a' ++ ('z' :: []))).length = 1
    ∧ reSearchIC ('z' :: []) (List.replicate 250 'a' ++ ('z' :: [])) = some (250, 251)
    ∧ matchWindow (List.replicate 250 'a' ++ ('z' :: [])) 250 251 = ('z' :: [])
    ∧ ¬ ∃ pre suf, liveExcerpt (List.replicate 250 'a' ++ ('z' :: []))
        = pre ++ matchWindow (List.replicate 250 'a' ++ ('z' :: [])) 250 251 ++ suf := by
  refine ⟨by decide, by decide, by decide, ?_⟩
  rintro ⟨pre, suf, hcontain⟩
  rw [show matchWindow (List.replicate 250 'a' ++ ('z' :: [])) 250 251 = ('z' :: [])
    from by decide] at hcontain
  have hz : 'z' ∈ liveExcerpt (List.replicate 250 'a' ++ ('z' :: [])) := by
    rw [hcontain]
    exact List.mem_append_left _ (List.mem_append_right _ (List.mem_cons_self _ _))
  exact (by decide : ¬ 'z' ∈ liveExcerpt (List.replicate 250 'a' ++ ('z' :: []))) hz

end Historydumper
